import Mathlib

/-!
A shallow embedding of the availability-resolution and conflict-detection
engine of the Schedly repository (`services/api/src/services/booking.service.ts`,
class `BookingService`), together with proofs of the specification's claims
about it.

Modelling conventions:

* Absolute instants (`Date` / luxon `DateTime` values) are integers counting
  minutes since an arbitrary epoch.  All of the engine's time arithmetic is in
  whole minutes, so this loses nothing.
* An IANA timezone name is interpreted through an arbitrary offset assignment
  `off : String → Int` (minutes east of UTC), i.e. as a fixed-offset zone.
  Luxon's `startOf("day")` in zone `z` then becomes
  `t - (t + off z) % 1440`, and a calendar date `YYYY-MM-DD` is represented by
  its local day number `d`, whose local midnight is the instant
  `1440 * d - off z`.  None of the claims under proof concern DST transitions.
* A `"HH:MM"` wall-clock string is represented by the image of
  `split(":").map(Number)`: two JS numbers, each either an integer or `NaN`
  (`Option Int`, with `none` for `NaN`).
* ISO date/datetime input strings are represented by their parse result
  (`Option Int`: `none` models an invalid string, for which luxon's
  `fromISO(...).isValid` is false).
* Fallible operations return `Except Err α`; the thrown Nest exceptions
  `NotFoundException`, `BadRequestException`, `ForbiddenException` become the
  constructors of `Err`, carrying the message string.
* The Prisma store becomes a `Store` of lists; `findUnique` / `findFirst`
  become `List.find?` and `findMany` becomes `List.filter`.  `orderBy` clauses
  are omitted: no claim under proof depends on the order of fetched rules,
  and appointment and exception fetches are consumed order-insensitively
  (`some` / first-found).  Record fields the engine never reads
  (names, prices, notes, timestamps) are omitted.
-/

namespace Schedly

/-- `AppointmentStatus` enum of the Prisma schema. -/
inductive AppointmentStatus
  | BOOKED
  | CONFIRMED
  | CANCELLED
  | COMPLETED
deriving DecidableEq, Repr

/-- A business record (fields the engine reads). -/
structure Business where
  id : String
  ownerId : String
  timezone : String
deriving DecidableEq, Repr

/-- A service record (fields the engine reads). -/
structure Service where
  id : String
  businessId : String
  durationMin : Int
  isActive : Bool
deriving DecidableEq, Repr

/-- The image of an `"HH:MM"` string under `split(":").map(Number)`:
hour and minute as JS numbers, `none` standing for `NaN`. -/
structure TimeString where
  hour : Option Int
  minute : Option Int
deriving DecidableEq, Repr

/-- An `AvailabilityRule` record. -/
structure AvailabilityRule where
  businessId : String
  dayOfWeek : Int
  startTime : TimeString
  endTime : TimeString
deriving DecidableEq, Repr

/-- An `AvailabilityException` record.  `date` is the stored UTC instant of the
local midnight of the pinned day; `startTime`/`endTime` are `none` when the
column is null or the string is empty (both falsy in JS). -/
structure AvailabilityExceptionRecord where
  businessId : String
  date : Int
  isClosed : Bool
  startTime : Option TimeString
  endTime : Option TimeString
deriving DecidableEq, Repr

/-- An appointment record (fields the engine reads). -/
structure Appointment where
  id : String
  businessId : String
  serviceId : String
  customerId : String
  staffId : Option String
  startAt : Int
  endAt : Int
  status : AppointmentStatus
deriving DecidableEq, Repr

/-- The engine's error taxonomy: the Nest exception classes the booking
service throws.  Note there is no conflict constructor: `BookingService`
never throws `ConflictException`. -/
inductive Err
  | notFound (msg : String)
  | badRequest (msg : String)
  | forbidden (msg : String)
deriving DecidableEq, Repr

instance {ε α : Type} [DecidableEq ε] [DecidableEq α] :
    DecidableEq (Except ε α) := fun x y =>
  match x, y with
  | .ok a, .ok b =>
    if h : a = b then .isTrue (by rw [h]) else .isFalse (by simp [h])
  | .error a, .error b =>
    if h : a = b then .isTrue (by rw [h]) else .isFalse (by simp [h])
  | .ok _, .error _ => .isFalse (by simp)
  | .error _, .ok _ => .isFalse (by simp)

/-- The Prisma store, as the lists of records the engine touches.
`userClients` / `userBusinesses` hold the ids of the existing user rows
(the only field the booking paths read besides existence is the business
owner id, which lives on `Business.ownerId`). -/
structure Store where
  businesses : List Business
  services : List Service
  userClients : List String
  userBusinesses : List String
  rules : List AvailabilityRule
  exceptions : List AvailabilityExceptionRecord
  appointments : List Appointment
deriving DecidableEq, Repr

/-- An open interval `{ start, end }` as produced by `intervalFromStrings`
(the source field `end` is a Lean keyword and is rendered `stop`). -/
structure Interval where
  start : Int
  stop : Int
deriving DecidableEq, Repr

/-- A generated slot `{ startAt, endAt }`. -/
structure Slot where
  startAt : Int
  endAt : Int
deriving DecidableEq, Repr

/-- `const DEFAULT_STEP_MINUTES = 15`. -/
def DEFAULT_STEP_MINUTES : Int := 15

/-- `business.timezone || "UTC"`: the empty string is the only falsy
`String` value. -/
def effTimezone (tz : String) : String :=
  if tz = "" then "UTC" else tz

/-- Luxon `startOf("day")` in a fixed-offset zone: the instant of the local
midnight preceding `t`, for offset `o` minutes east of UTC. -/
def startOfDay (o : Int) (t : Int) : Int :=
  t - (t + o) % 1440

/-- The local day number of instant `t` in a zone of offset `o`
(luxon `toISODate()` rendered as a day count). -/
def dayNumberOf (o : Int) (t : Int) : Int :=
  (t + o) / 1440

/-- Luxon `day.set({hour, minute, second: 0, millisecond: 0})` at a local
midnight `day`: valid exactly when the units are in range, in which case it
is `day + hour * 60 + minute`; out-of-range units make the `DateTime`
invalid (`none`). -/
def setTime (day : Int) (hour minute : Int) : Option Int :=
  if 0 ≤ hour ∧ hour ≤ 23 ∧ 0 ≤ minute ∧ minute ≤ 59 then
    some (day + hour * 60 + minute)
  else
    none

/-- `BookingService.intervalFromStrings(day, timezone, startTime, endTime)`.
`day` is the local-midnight instant; the `setZone(timezone)` calls of the
source do not move the instant and are dropped.  Returns `none` when a
component is `NaN`, a `set` is invalid, or `end <= start`. -/
def intervalFromStrings (day : Int) (startTime endTime : TimeString) :
    Option Interval :=
  match startTime.hour, startTime.minute, endTime.hour, endTime.minute with
  | some startHour, some startMinute, some endHour, some endMinute =>
    match setTime day startHour startMinute, setTime day endHour endMinute with
    | some start, some stop =>
      if stop ≤ start then none else some ⟨start, stop⟩
    | _, _ => none
  | _, _, _, _ => none

/-- `BookingService.overlaps(start, end, existingStart, existingEnd, timezone,
targetStaffId?, existingStaffId?)`.  The timezone argument only re-zones the
`DateTime`s and does not move the instants, so it is dropped. -/
def overlaps (start stop existingStart existingEnd : Int)
    (targetStaffId existingStaffId : Option String) : Bool :=
  match targetStaffId, existingStaffId with
  | some t, some e =>
    if e ≠ t then false
    else decide (start < existingEnd) && decide (stop > existingStart)
  | _, _ => decide (start < existingEnd) && decide (stop > existingStart)

/-- The staff combinations in which two time-overlapping appointments count
as a conflict: candidate unstaffed, existing unstaffed, or the same staff on
both (§4.3 of the spec). -/
def staffCompatible (target existing : Option String) : Prop :=
  target = none ∨ existing = none ∨ target = existing

instance (target existing : Option String) :
    Decidable (staffCompatible target existing) := by
  unfold staffCompatible; infer_instance

/-- The `prisma.availabilityRule.findMany({where: {businessId, dayOfWeek}})`
fetch of `getDailyContext` (the `orderBy` is omitted, see the header). -/
def findDayRules (s : Store) (businessId : String) (dayOfWeek : Int) :
    List AvailabilityRule :=
  s.rules.filter fun r =>
    decide (r.businessId = businessId) && decide (r.dayOfWeek = dayOfWeek)

/-- The `prisma.availabilityException.findFirst` fetch of `getDailyContext`:
the first exception of the business whose stored date falls in
`[day, day + 1 day)`. -/
def findDayException (s : Store) (businessId : String) (day : Int) :
    Option AvailabilityExceptionRecord :=
  s.exceptions.find? fun e =>
    decide (e.businessId = businessId) && decide (day ≤ e.date) &&
      decide (e.date < day + 1440)

/-- The `prisma.appointment.findMany` fetch of `getDailyContext`: the
non-cancelled appointments of the business starting in `[day, day + 1 day)`. -/
def findDayAppointments (s : Store) (businessId : String) (day : Int) :
    List Appointment :=
  s.appointments.filter fun a =>
    decide (a.businessId = businessId) && decide (day ≤ a.startAt) &&
      decide (a.startAt < day + 1440) && decide (a.status ≠ .CANCELLED)

/-- Lines 513–524 of `getDailyContext`: rule-derived intervals, overridden by
a same-day exception when one was found. -/
def resolveIntervals (day : Int) (rules : List AvailabilityRule)
    (exception : Option AvailabilityExceptionRecord) : List Interval :=
  let intervals :=
    (rules.map fun r => intervalFromStrings day r.startTime r.endTime).filterMap id
  match exception with
  | none => intervals
  | some e =>
    if e.isClosed then []
    else
      match e.startTime, e.endTime with
      | some st, some et =>
        match intervalFromStrings day st et with
        | some override => [override]
        | none => []
      | _, _ => intervals

/-- The context record `getDailyContext` returns. -/
structure DailyContext where
  business : Business
  intervals : List Interval
  appointments : List Appointment
  day : Int
  timezone : String
deriving DecidableEq, Repr

/-- `BookingService.getDailyContext(businessId, date)`.  `date` is the parse
result of the ISO date string: `none` for an invalid string, `some d` for the
local day number `d`.  The weekday index uses `0 = Sunday`
(`day.weekday === 7 ? 0 : day.weekday`); with day 0 a Thursday
(epoch anchor) it is `(d + 4) % 7`. -/
def getDailyContext (off : String → Int) (s : Store) (businessId : String)
    (date : Option Int) : Except Err DailyContext :=
  match s.businesses.find? fun b => decide (b.id = businessId) with
  | none => .error (.notFound "Negocio no encontrado")
  | some business =>
    let timezone := effTimezone business.timezone
    match date with
    | none => .error (.badRequest "Fecha inválida")
    | some dayNum =>
      let day : Int := 1440 * dayNum - off timezone
      let dayOfWeek : Int := (dayNum + 4) % 7
      let rules := findDayRules s businessId dayOfWeek
      let exception := findDayException s businessId day
      let appointments := findDayAppointments s businessId day
      .ok { business := business
            intervals := resolveIntervals day rules exception
            appointments := appointments
            day := day
            timezone := timezone }

/-- `params.stepMinutes || DEFAULT_STEP_MINUTES`: `0` (and an absent
parameter) are falsy and fall back to the default. -/
def effStepMinutes : Option Int → Int
  | none => DEFAULT_STEP_MINUTES
  | some v => if v = 0 then DEFAULT_STEP_MINUTES else v

/-- The inner `while (cursor.plus(duration) <= interval.end)` loop of
`getAvailability`, lines 350–368, walking one interval, transcribed with an
explicit iteration budget: `none` means the budget was exhausted before the
loop's exit condition held.  The `toISO()` renderings of a valid `DateTime`
are never null, so the null-check before `slots.push` is dropped. -/
def slotWalkFuel (dur step now : Int) (appts : List Appointment)
    (staffId : Option String) (stop : Int) :
    Nat → Int → Option (List Slot)
  | 0, _ => none
  | fuel + 1, cursor =>
    if cursor + dur ≤ stop then
      let candidateEnd := cursor + dur
      let isPast : Bool := decide (cursor ≤ now - 1)
      let hasConflict : Bool := appts.any fun a =>
        overlaps cursor candidateEnd a.startAt a.endAt staffId a.staffId
      (slotWalkFuel dur step now appts staffId stop fuel (cursor + step)).map
        fun rest =>
          (if !isPast && !hasConflict then [⟨cursor, candidateEnd⟩] else []) ++ rest
    else
      some []

/-- The loop's denotation: `slotWalkFuel` run with the iteration budget
`(interval.end - duration - cursor + 1).toNat + 1`, which
`slot_generation_terminates` proves sufficient whenever `0 < stepMinutes`
(the cursor advances by `stepMinutes ≥ 1` each iteration).  The source loop
never exits when `stepMinutes ≤ 0`; there the budget runs out and the
truncated denotation is `[]`. -/
def slotWalk (dur step now : Int) (appts : List Appointment)
    (staffId : Option String) (stop cursor : Int) : List Slot :=
  (slotWalkFuel dur step now appts staffId stop
      ((stop - dur - cursor + 1).toNat + 1) cursor).getD []

/-- The availability payload `getAvailability` returns.  `date` is rendered
as the local day number (`context.day.toISODate()`). -/
structure AvailabilityResult where
  date : Int
  timezone : String
  serviceDurationMin : Int
  stepMinutes : Int
  slots : List Slot
deriving DecidableEq, Repr

/-- The availability request body (`AvailabilityRequest`). -/
structure AvailabilityRequest where
  date : Option Int
  serviceId : String
  stepMinutes : Option Int
  staffId : Option String
deriving DecidableEq, Repr

/-- `BookingService.getAvailability(businessId, params)`.  `now` is the
injected clock reading (`DateTime.now()`; `setZone` does not move it). -/
def getAvailability (off : String → Int) (s : Store) (now : Int)
    (businessId : String) (params : AvailabilityRequest) :
    Except Err AvailabilityResult :=
  match getDailyContext off s businessId params.date with
  | .error e => .error e
  | .ok context =>
    match s.services.find? fun sv => decide (sv.id = params.serviceId) with
    | none => .error (.notFound "Servicio no encontrado")
    | some service =>
      if service.businessId ≠ businessId then
        .error (.badRequest "El servicio no pertenece al negocio")
      else
        let serviceDuration := service.durationMin
        let stepMinutes := effStepMinutes params.stepMinutes
        let slots := context.intervals.flatMap fun interval =>
          slotWalk serviceDuration stepMinutes now context.appointments
            params.staffId interval.stop interval.start
        .ok { date := dayNumberOf (off context.timezone) context.day
              timezone := context.timezone
              serviceDurationMin := serviceDuration
              stepMinutes := stepMinutes
              slots := slots }

/-- The booking request body (`CreateAppointmentInput`).  `startAt` is the
parse result of `DateTime.fromISO(input.startAt, { zone: timezone })`:
`none` for an unparseable string, `some t` for instant `t`. -/
structure CreateAppointmentInput where
  businessId : String
  serviceId : String
  startAt : Option Int
  staffId : Option String
deriving DecidableEq, Repr

/-- `BookingService.createAppointment(input, customerId)`.  `newId` stands
for the id the store generates for the inserted row.  The staff lookup of
lines 394–397 is folded into one boolean (present and not found rejects). -/
def createAppointment (off : String → Int) (s : Store)
    (input : CreateAppointmentInput) (customerId : String) (newId : String) :
    Except Err (Appointment × Store) :=
  match s.businesses.find? fun b => decide (b.id = input.businessId) with
  | none => .error (.notFound "Negocio no encontrado")
  | some business =>
  match s.services.find? fun sv => decide (sv.id = input.serviceId) with
  | none => .error (.notFound "Servicio no encontrado")
  | some service =>
  if service.businessId ≠ input.businessId then
    .error (.badRequest "El servicio no pertenece al negocio indicado")
  else if !s.userClients.contains customerId then
    .error (.notFound "Cliente no encontrado")
  else if !(match input.staffId with
            | some staffId => s.userBusinesses.contains staffId
            | none => true) then
    .error (.notFound "Staff no encontrado")
  else
    let timezone := effTimezone business.timezone
    match input.startAt with
    | none => .error (.badRequest "Fecha de inicio inválida")
    | some start =>
      let stop := start + service.durationMin
      match getDailyContext off s input.businessId
          (some (dayNumberOf (off timezone) start)) with
      | .error e => .error e
      | .ok context =>
        if !(context.intervals.any fun interval =>
              decide (interval.start ≤ start) && decide (stop ≤ interval.stop)) then
          .error (.badRequest "Horario fuera de la disponibilidad del negocio")
        else if context.appointments.any (fun appt =>
              overlaps start stop appt.startAt appt.endAt input.staffId appt.staffId) then
          .error (.badRequest "Existe otra cita en ese horario")
        else
          let created : Appointment :=
            { id := newId
              businessId := input.businessId
              serviceId := input.serviceId
              customerId := customerId
              staffId := input.staffId
              startAt := start
              endAt := stop
              status := .BOOKED }
          .ok (created, { s with appointments := s.appointments ++ [created] })

/-- The actor of a cancellation request (`req.user`). -/
inductive ActorKind
  | client
  | business
deriving DecidableEq, Repr

structure Actor where
  id : String
  kind : ActorKind
deriving DecidableEq, Repr

/-- `BookingService.cancelAppointment(id, actor)`.  The business-actor branch
inlines `assertBusinessAccess(appointment.businessId, actor.id)`. -/
def cancelAppointment (s : Store) (id : String) (actor : Actor) :
    Except Err (Appointment × Store) :=
  match s.appointments.find? fun a => decide (a.id = id) with
  | none => .error (.notFound "Cita no encontrada")
  | some appointment =>
  if appointment.status = .CANCELLED then
    .ok (appointment, s)
  else if actor.kind = .client ∧ appointment.customerId ≠ actor.id then
    .error (.forbidden "Solo el cliente que reservó puede cancelar")
  else
    match (if actor.kind = .business then
            match s.businesses.find? fun b => decide (b.id = appointment.businessId) with
            | none => .error (.notFound "Negocio no encontrado")
            | some business =>
              if business.ownerId ≠ actor.id then
                .error (.forbidden "Solo el propietario puede modificar el negocio")
              else .ok ()
          else (.ok () : Except Err Unit)) with
    | .error e => .error e
    | .ok _ =>
      let updated := { appointment with status := .CANCELLED }
      .ok (updated,
        { s with appointments := s.appointments.map fun a =>
            if a.id = id then { a with status := AppointmentStatus.CANCELLED } else a })

/-- The exception request body (`AvailabilityExceptionInput`).  `date` is the
parse result of the `YYYY-MM-DD` string as a local day number; `startTime` /
`endTime` are `none` when absent or empty (falsy). -/
structure AvailabilityExceptionInput where
  date : Option Int
  isClosed : Option Bool
  startTime : Option TimeString
  endTime : Option TimeString
deriving DecidableEq, Repr

/-- The reference day `DateTime.fromISO("2020-01-01")` of
`assertValidTimeRange` (day number 18262 since the 1970 epoch; the validity
of `intervalFromStrings` does not depend on the day). -/
def fakeDay : Int := 18262 * 1440

/-- `BookingService.assertValidTimeRange(startTime, endTime)`. -/
def assertValidTimeRange (startTime endTime : TimeString) : Except Err Unit :=
  match intervalFromStrings fakeDay startTime endTime with
  | none => .error (.badRequest "Rango de horario inválido")
  | some _ => .ok ()

/-- `BookingService.addAvailabilityException(businessId, input, actorId)`.
The `assertBusinessAccess` call is inlined; `input.isClosed.getD false`
models the JS truthiness test `!input.isClosed`, and the stored
`input.isClosed ?? true` becomes `input.isClosed.getD true`. -/
def addAvailabilityException (off : String → Int) (s : Store)
    (businessId : String) (input : AvailabilityExceptionInput)
    (actorId : Option String) :
    Except Err (AvailabilityExceptionRecord × Store) :=
  match s.businesses.find? fun b => decide (b.id = businessId) with
  | none => .error (.notFound "Negocio no encontrado")
  | some business =>
  if (match actorId with
      | some a => decide (business.ownerId ≠ a)
      | none => false : Bool) then
    .error (.forbidden "Solo el propietario puede modificar el negocio")
  else
    let timezone := effTimezone business.timezone
    match input.date with
    | none => .error (.badRequest "Fecha inválida")
    | some dayNum =>
      let day : Int := 1440 * dayNum - off timezone
      match (if input.isClosed.getD false = false then
              match input.startTime, input.endTime with
              | some st, some et => assertValidTimeRange st et
              | _, _ =>
                .error (.badRequest
                  "startTime y endTime son requeridos cuando isClosed es false")
            else (.ok () : Except Err Unit)) with
      | .error e => .error e
      | .ok _ =>
        let record : AvailabilityExceptionRecord :=
          { businessId := businessId
            date := day
            isClosed := input.isClosed.getD true
            startTime := input.startTime
            endTime := input.endTime }
        .ok (record, { s with exceptions := s.exceptions ++ [record] })

/-- One committed engine operation: a successful booking
(`createAppointment`) or a successful cancellation (`cancelAppointment`).
Rejected calls do not change the store. -/
inductive Step (off : String → Int) : Store → Store → Prop
  | create {s s' : Store} (input : CreateAppointmentInput)
      (customerId newId : String) (appt : Appointment)
      (h : createAppointment off s input customerId newId = .ok (appt, s')) :
      Step off s s'
  | cancel {s s' : Store} (id : String) (actor : Actor) (appt : Appointment)
      (h : cancelAppointment s id actor = .ok (appt, s')) :
      Step off s s'

/-- States reachable from `init` by booking and cancellation operations. -/
inductive Reachable (off : String → Int) (init : Store) : Store → Prop
  | refl : Reachable off init init
  | step {s s' : Store} (hr : Reachable off init s) (hs : Step off s s') :
      Reachable off init s'

/-- Two appointments violate the §3 invariant: same business, neither
cancelled, staff-compatible, and `[startAt, endAt)` overlapping. -/
def apptsConflict (a b : Appointment) : Prop :=
  a.businessId = b.businessId ∧
    a.status ≠ .CANCELLED ∧ b.status ≠ .CANCELLED ∧
    staffCompatible a.staffId b.staffId ∧
    a.startAt < b.endAt ∧ b.startAt < a.endAt

/-- The overlap invariant of §3: no two stored appointments conflict. -/
def NoDoubleBooking (s : Store) : Prop :=
  s.appointments.Pairwise fun a b => ¬ apptsConflict a b

/-- Auxiliary invariant: every stored appointment belongs to an existing
business and ends before the end of the local calendar day (in that
business's timezone) on which it starts.  Engine-committed appointments
have this shape because the candidate interval must fit inside a resolved
open interval of one day. -/
def WellPlaced (off : String → Int) (s : Store) : Prop :=
  ∀ a ∈ s.appointments, ∃ b,
    s.businesses.find? (fun x => decide (x.id = a.businessId)) = some b ∧
      a.endAt < startOfDay (off (effTimezone b.timezone)) a.startAt + 1440

/-! ### Concrete fixtures used by the witnesses and counterexamples -/

/-- The all-UTC offset assignment used by the concrete examples. -/
def offZero : String → Int := fun _ => 0

/-- Concrete store for the C5 example: a business with two split-shift rules
for weekday 4 (day number 0 is a Thursday) and a closed exception pinned to
day 0. -/
def storeC5 : Store :=
  { businesses := [⟨"b1", "o1", "UTC"⟩]
    services := []
    userClients := []
    userBusinesses := []
    rules := [⟨"b1", 4, ⟨some 9, some 0⟩, ⟨some 12, some 0⟩⟩,
              ⟨"b1", 4, ⟨some 13, some 0⟩, ⟨some 18, some 0⟩⟩]
    exceptions := [⟨"b1", 0, true, none, none⟩]
    appointments := [] }

/-- The context `getDailyContext` computes for `storeC5` on day 0. -/
def ctxC5 : DailyContext :=
  { business := ⟨"b1", "o1", "UTC"⟩
    intervals := []
    appointments := []
    day := 0
    timezone := "UTC" }

/-- Concrete store for the C6 example: a rule 09:00–18:00 for weekday 4 and
a non-closed exception overriding day 0 with 10:00–12:00. -/
def storeC6 : Store :=
  { businesses := [⟨"b1", "o1", "UTC"⟩]
    services := []
    userClients := []
    userBusinesses := []
    rules := [⟨"b1", 4, ⟨some 9, some 0⟩, ⟨some 18, some 0⟩⟩]
    exceptions := [⟨"b1", 0, false, some ⟨some 10, some 0⟩, some ⟨some 12, some 0⟩⟩]
    appointments := [] }

/-- The context `getDailyContext` computes for `storeC6` on day 0: exactly
the override interval 10:00–12:00, not the rule interval. -/
def ctxC6 : DailyContext :=
  { business := ⟨"b1", "o1", "UTC"⟩
    intervals := [⟨600, 720⟩]
    appointments := []
    day := 0
    timezone := "UTC" }

/-- The already-cancelled appointment of the C8 counterexample, booked by
customer `c1`. -/
def apptC8 : Appointment :=
  ⟨"a1", "b1", "s1", "c1", none, 600, 660, .CANCELLED⟩

/-- Store holding `apptC8`. -/
def storeC8 : Store :=
  { businesses := [⟨"b1", "o1", "UTC"⟩]
    services := []
    userClients := ["c1", "c2"]
    userBusinesses := ["o1"]
    rules := []
    exceptions := []
    appointments := [apptC8] }

/-- The still-BOOKED appointment of the C8 witness. -/
def apptC8b : Appointment :=
  ⟨"a1", "b1", "s1", "c1", none, 600, 660, .BOOKED⟩

/-- Store holding `apptC8b`. -/
def storeC8b : Store :=
  { storeC8 with appointments := [apptC8b] }

/-- The 60-minute service of the booking examples. -/
def svcC2 : Service := ⟨"s1", "b1", 60, true⟩

/-- An existing booked appointment 10:00–11:00 on day 0. -/
def apptC2 : Appointment := ⟨"a1", "b1", "s1", "c1", none, 600, 660, .BOOKED⟩

/-- Concrete store of the booking examples: rule 09:00–18:00 on weekday 4,
one existing appointment 10:00–11:00 on day 0 (a Thursday). -/
def storeC2 : Store :=
  { businesses := [⟨"b1", "o1", "UTC"⟩]
    services := [svcC2]
    userClients := ["c1"]
    userBusinesses := ["o1"]
    rules := [⟨"b1", 4, ⟨some 9, some 0⟩, ⟨some 18, some 0⟩⟩]
    exceptions := []
    appointments := [apptC2] }

/-- The daily context of `storeC2` on day 0. -/
def ctxC2 : DailyContext :=
  { business := ⟨"b1", "o1", "UTC"⟩
    intervals := [⟨540, 1080⟩]
    appointments := [apptC2]
    day := 0
    timezone := "UTC" }

/-- Store of the C4 witness: the open interval is 09:00–10:30, so only the
09:00 slot fits without touching the 10:00–11:00 appointment. -/
def storeC4 : Store :=
  { storeC2 with rules := [⟨"b1", 4, ⟨some 9, some 0⟩, ⟨some 10, some 30⟩⟩] }

/-- The daily context of `storeC4` on day 0. -/
def ctxC4 : DailyContext :=
  { business := ⟨"b1", "o1", "UTC"⟩
    intervals := [⟨540, 630⟩]
    appointments := [apptC2]
    day := 0
    timezone := "UTC" }

/-- The availability payload of `storeC4` on day 0 at clock reading 0. -/
def resC4 : AvailabilityResult :=
  { date := 0
    timezone := "UTC"
    serviceDurationMin := 60
    stepMinutes := 15
    slots := [⟨540, 600⟩] }

/-- The appointment-free start state of the C1 witness. -/
def storeC1 : Store :=
  { storeC2 with appointments := [] }

/-- The appointment committed in the C1 witness run. -/
def apptC1 : Appointment := ⟨"a4", "b1", "s1", "c1", none, 540, 600, .BOOKED⟩

/-- The state after booking `apptC1` from `storeC1`. -/
def storeC1b : Store :=
  { storeC1 with appointments := [apptC1] }

theorem staffCompatible_symm {x y : Option String} (h : staffCompatible x y) :
    staffCompatible y x := by
  rcases h with h | h | h
  · exact Or.inr (Or.inl h)
  · exact Or.inl h
  · exact Or.inr (Or.inr h.symm)

/-- When the staff scoping is compatible, `overlaps` is exactly the
half-open time test; when both sides name different staff, it is `false`. -/
theorem overlaps_eq_of_compatible (cs ce es ee : Int)
    {t e : Option String} (h : staffCompatible t e) :
    overlaps cs ce es ee t e = (decide (cs < ee) && decide (ce > es)) := by
  match t, e with
  | none, none => rfl
  | none, some e' => rfl
  | some t', none => rfl
  | some t', some e' =>
    have heq : e' = t' := by
      rcases h with h | h | h <;> simp_all
    simp [overlaps, heq]

theorem overlaps_of_incompatible (cs ce es ee : Int)
    {t e : Option String} (h : ¬ staffCompatible t e) :
    overlaps cs ce es ee t e = false := by
  match t, e with
  | none, _ => exact absurd (Or.inl rfl) h
  | some t', none => exact absurd (Or.inr (Or.inl rfl)) h
  | some t', some e' =>
    have hne : e' ≠ t' := by
      intro he; exact h (Or.inr (Or.inr (by rw [he])))
    simp [overlaps, hne]

theorem startOfDay_le (o t : Int) : startOfDay o t ≤ t := by
  unfold startOfDay; omega

theorem lt_startOfDay_add (o t : Int) : t < startOfDay o t + 1440 := by
  unfold startOfDay; omega

/-- Ints in the same local day window share the day start. -/
theorem startOfDay_eq_of_mem (o t x : Int)
    (h1 : startOfDay o t ≤ x) (h2 : x < startOfDay o t + 1440) :
    startOfDay o x = startOfDay o t := by
  unfold startOfDay at *; omega

/-- The day start of the local day number of `t` is the day start of `t`. -/
theorem dayNumber_startOfDay (o t : Int) :
    1440 * dayNumberOf o t - o = startOfDay o t := by
  unfold dayNumberOf startOfDay; omega

theorem setTime_bounds {day hr mn t : Int} (ht : setTime day hr mn = some t) :
    day ≤ t ∧ t ≤ day + 1439 := by
  unfold setTime at ht
  split at ht
  · simp only [Option.some.injEq] at ht
    omega
  · simp at ht

/-- Intervals built by `intervalFromStrings` lie inside the day that starts
at `day` and are non-degenerate. -/
theorem intervalFromStrings_bounds {day : Int} {st et : TimeString}
    {i : Interval} (h : intervalFromStrings day st et = some i) :
    day ≤ i.start ∧ i.start < i.stop ∧ i.stop ≤ day + 1439 := by
  rcases st with ⟨sh, sm⟩; rcases et with ⟨eh, em⟩
  rcases sh with _ | sh <;> rcases sm with _ | sm <;>
    rcases eh with _ | eh <;> rcases em with _ | em <;>
    simp only [intervalFromStrings] at h <;> try exact absurd h (by simp)
  cases hs : setTime day sh sm with
  | none => rw [hs] at h; simp at h
  | some s =>
    cases he : setTime day eh em with
    | none => rw [hs, he] at h; simp at h
    | some e =>
      rw [hs, he] at h
      simp only at h
      split at h
      · simp at h
      · next hgt =>
        have hs' := setTime_bounds hs
        have he' := setTime_bounds he
        simp only [Option.some.injEq] at h
        subst h
        simp only
        omega

/-- Every interval `resolveIntervals` returns lies inside the day. -/
theorem resolveIntervals_mem {day : Int} {rules : List AvailabilityRule}
    {exc : Option AvailabilityExceptionRecord} {i : Interval}
    (h : i ∈ resolveIntervals day rules exc) :
    day ≤ i.start ∧ i.start < i.stop ∧ i.stop ≤ day + 1439 := by
  unfold resolveIntervals at h
  have hrule :
      i ∈ (rules.map fun r => intervalFromStrings day r.startTime r.endTime).filterMap id →
        day ≤ i.start ∧ i.start < i.stop ∧ i.stop ≤ day + 1439 := by
    intro hm
    rw [List.mem_filterMap] at hm
    obtain ⟨o, ho, hoi⟩ := hm
    rw [List.mem_map] at ho
    obtain ⟨r, _, hr⟩ := ho
    cases o with
    | none => simp at hoi
    | some j =>
      simp at hoi; subst hoi
      exact intervalFromStrings_bounds hr
  match exc with
  | none => exact hrule h
  | some e =>
    simp only at h
    split at h
    · simp at h
    · match hst : e.startTime, het : e.endTime with
      | some st, some et =>
        rw [hst, het] at h
        simp only at h
        split at h
        · next override hov =>
          simp at h; subst h
          exact intervalFromStrings_bounds hov
        · simp at h
      | some st, none => rw [hst, het] at h; exact hrule h
      | none, some et => rw [hst, het] at h; exact hrule h
      | none, none => rw [hst, het] at h; exact hrule h

/-! ### Claim C3: the conflict test -/

/-- **C3.** For all candidate and existing intervals and optional staff
identifiers, the conflict test returns `false` whenever the candidate names a
staff member and the existing appointment names a different staff member; in
every other staff combination (candidate unstaffed, existing unstaffed, or
same staff on both) it returns `true` exactly when
`candidateStart < existingEnd` and `candidateEnd > existingStart`. -/
theorem overlaps_staff_scoped_halfopen (cs ce es ee : Int)
    (t e : Option String) :
    (∀ ts es', t = some ts → e = some es' → ts ≠ es' →
        overlaps cs ce es ee t e = false) ∧
    (staffCompatible t e →
        (overlaps cs ce es ee t e = true ↔ cs < ee ∧ ce > es)) := by
  constructor
  · intro ts es' ht he hne
    subst ht; subst he
    have hic : ¬ staffCompatible (some ts) (some es') := by
      simp only [staffCompatible]
      simpa using hne
    exact overlaps_of_incompatible _ _ _ _ hic
  · intro hc
    rw [overlaps_eq_of_compatible _ _ _ _ hc]
    simp

/-- Witness for C3 at concrete inputs. -/
theorem overlaps_staff_scoped_halfopen_witness :
    overlaps 0 10 5 15 (some "a") (some "b") = false ∧
    (overlaps 0 10 5 15 none (some "b") = true ↔
      (0 : Int) < 15 ∧ (10 : Int) > 5) := by
  refine ⟨?_, ?_⟩
  · exact (overlaps_staff_scoped_halfopen 0 10 5 15 (some "a") (some "b")).1
      "a" "b" rfl rfl (by decide)
  · exact (overlaps_staff_scoped_halfopen 0 10 5 15 none (some "b")).2
      (Or.inl rfl)

/-! ### Claims C5 and C6: exception override in the availability resolver -/

/-- **C5.** If an availability exception with `isClosed = true` exists for
the queried (business, date), the resolver returns an empty sequence of open
intervals, regardless of how many weekly rules exist for that weekday. -/
theorem closed_exception_yields_empty (off : String → Int) (s : Store)
    (businessId : String) (date : Option Int) (ctx : DailyContext)
    (e : AvailabilityExceptionRecord)
    (hctx : getDailyContext off s businessId date = .ok ctx)
    (hexc : findDayException s businessId ctx.day = some e)
    (hclosed : e.isClosed = true) :
    ctx.intervals = [] := by
  unfold getDailyContext at hctx
  cases hb : s.businesses.find? fun b => decide (b.id = businessId) with
  | none => rw [hb] at hctx; exact absurd hctx (by simp)
  | some business =>
    rw [hb] at hctx
    cases date with
    | none => exact absurd hctx (by simp)
    | some dayNum =>
      simp only [Except.ok.injEq] at hctx
      subst hctx
      simp only at hexc ⊢
      rw [hexc]
      simp [resolveIntervals, hclosed]

/-- Witness for C5: despite two weekday rules, the closed exception leaves
no open intervals. -/
theorem closed_exception_yields_empty_witness :
    getDailyContext offZero storeC5 "b1" (some 0) = .ok ctxC5 ∧
    findDayException storeC5 "b1" ctxC5.day = some ⟨"b1", 0, true, none, none⟩ ∧
    ctxC5.intervals = [] := by
  refine ⟨by decide, by decide, ?_⟩
  exact closed_exception_yields_empty offZero storeC5 "b1" (some 0) ctxC5
    ⟨"b1", 0, true, none, none⟩ (by decide) (by decide) rfl

/-- A non-closed exception with both override times replaces the rule
intervals by the override interval (or nothing when it fails validation). -/
theorem resolveIntervals_nonclosed (day : Int) (rules : List AvailabilityRule)
    (e : AvailabilityExceptionRecord) (st et : TimeString)
    (hopen : e.isClosed = false) (hst : e.startTime = some st)
    (het : e.endTime = some et) :
    resolveIntervals day rules (some e) =
      match intervalFromStrings day st et with
      | some override => [override]
      | none => [] := by
  simp [resolveIntervals, hopen, hst, het]

/-- **C6.** If a non-closed availability exception exists for the queried
(business, date), the resolver returns exactly the single interval built from
the exception's override `startTime`/`endTime` (or an empty sequence if that
override fails interval validation), and never the union of the override with
rule-derived intervals.  The final conjunct justifies the override-times
hypotheses: every non-closed exception `addAvailabilityException` commits
carries both times. -/
theorem nonclosed_exception_replaces_rules (off : String → Int) (s : Store)
    (businessId : String) (date : Option Int) (ctx : DailyContext)
    (e : AvailabilityExceptionRecord) (st et : TimeString)
    (hctx : getDailyContext off s businessId date = .ok ctx)
    (hexc : findDayException s businessId ctx.day = some e)
    (hopen : e.isClosed = false)
    (hst : e.startTime = some st) (het : e.endTime = some et) :
    (ctx.intervals = match intervalFromStrings ctx.day st et with
      | some override => [override]
      | none => []) ∧
    ctx.intervals.length ≤ 1 ∧
    (∀ (s₀ : Store) (input : AvailabilityExceptionInput)
        (actorId : Option String) (exc : AvailabilityExceptionRecord)
        (s₁ : Store),
      addAvailabilityException off s₀ businessId input actorId = .ok (exc, s₁) →
        exc.isClosed = false → exc.startTime.isSome ∧ exc.endTime.isSome) := by
  have hmain : ctx.intervals = match intervalFromStrings ctx.day st et with
      | some override => [override]
      | none => [] := by
    unfold getDailyContext at hctx
    cases hb : s.businesses.find? fun b => decide (b.id = businessId) with
    | none => rw [hb] at hctx; exact absurd hctx (by simp)
    | some business =>
      rw [hb] at hctx
      cases date with
      | none => exact absurd hctx (by simp)
      | some dayNum =>
        simp only [Except.ok.injEq] at hctx
        subst hctx
        simp only at hexc ⊢
        rw [hexc]
        exact resolveIntervals_nonclosed _ _ _ _ _ hopen hst het
  refine ⟨hmain, ?_, ?_⟩
  · rw [hmain]
    cases intervalFromStrings ctx.day st et <;> simp
  · intro s₀ input actorId exc s₁ hadd hclosed
    unfold addAvailabilityException at hadd
    cases hb : s₀.businesses.find? fun b => decide (b.id = businessId) with
    | none => rw [hb] at hadd; exact absurd hadd (by simp)
    | some business =>
      rw [hb] at hadd
      simp only at hadd
      split at hadd
      · exact absurd hadd (by simp)
      · cases hdate : input.date with
        | none => rw [hdate] at hadd; exact absurd hadd (by simp)
        | some dayNum =>
          rw [hdate] at hadd
          simp only at hadd
          split at hadd
          · exact absurd hadd (by simp)
          · next u heq =>
            simp only [Except.ok.injEq, Prod.mk.injEq] at hadd
            obtain ⟨hrec, -⟩ := hadd
            subst hrec
            simp only at hclosed
            have hfalse : input.isClosed = some false := by
              cases hic : input.isClosed with
              | none => rw [hic] at hclosed; simp at hclosed
              | some b =>
                rw [hic] at hclosed
                simp only [Option.getD_some] at hclosed
                rw [hclosed]
            rw [hfalse] at heq
            simp only [Option.getD_some] at heq
            simp only [if_true] at heq
            cases hsti : input.startTime with
            | none => rw [hsti] at heq; simp at heq
            | some stv =>
              cases heti : input.endTime with
              | none => rw [hsti, heti] at heq; simp at heq
              | some etv => simp [hsti, heti]

/-- Witness for C6. -/
theorem nonclosed_exception_replaces_rules_witness :
    getDailyContext offZero storeC6 "b1" (some 0) = .ok ctxC6 ∧
    ctxC6.intervals =
      (match intervalFromStrings ctxC6.day ⟨some 10, some 0⟩ ⟨some 12, some 0⟩ with
       | some override => [override]
       | none => []) ∧
    ctxC6.intervals.length ≤ 1 := by
  have h := nonclosed_exception_replaces_rules offZero storeC6 "b1" (some 0)
    ctxC6 ⟨"b1", 0, false, some ⟨some 10, some 0⟩, some ⟨some 12, some 0⟩⟩
    ⟨some 10, some 0⟩ ⟨some 12, some 0⟩
    (by decide) (by decide) rfl rfl rfl
  exact ⟨by decide, h.1, h.2.1⟩

/-! ### Claims C8 and C9: cancellation -/

/-- **C8 counterexample.** Customer `c2` is not the owner of appointment
`a1`, yet `cancelAppointment` succeeds as a no-op instead of rejecting as
forbidden, because the already-CANCELLED check precedes the authorization
check.  This refutes the claim for appointments that are already
CANCELLED. -/
theorem cancel_foreign_customer_not_forbidden_counterexample :
    apptC8.customerId ≠ "c2" ∧
    cancelAppointment storeC8 "a1" ⟨"c2", .client⟩ = .ok (apptC8, storeC8) ∧
    ∀ err : Err, cancelAppointment storeC8 "a1" ⟨"c2", .client⟩ ≠ .error err := by
  refine ⟨by decide, by decide, ?_⟩
  intro err h
  rw [show cancelAppointment storeC8 "a1" ⟨"c2", .client⟩ =
      .ok (apptC8, storeC8) from by decide] at h
  exact absurd h (by simp)

/-- **C8 (amended).** For every appointment whose status is not CANCELLED
and every customer actor whose identifier differs from the appointment's
`customerId`, `cancelAppointment` rejects as forbidden; rejecting, it
returns no updated store, so the appointment's status is unchanged. -/
theorem cancel_foreign_customer_forbidden (s : Store) (id : String)
    (actor : Actor) (a : Appointment)
    (hfind : s.appointments.find? (fun x => decide (x.id = id)) = some a)
    (hnc : a.status ≠ .CANCELLED)
    (hkind : actor.kind = .client)
    (hne : a.customerId ≠ actor.id) :
    cancelAppointment s id actor =
      .error (.forbidden "Solo el cliente que reservó puede cancelar") := by
  unfold cancelAppointment
  rw [hfind]
  simp only
  rw [if_neg hnc, if_pos ⟨hkind, hne⟩]

/-- Witness for the amended C8. -/
theorem cancel_foreign_customer_forbidden_witness :
    cancelAppointment storeC8b "a1" ⟨"c2", .client⟩ =
      .error (.forbidden "Solo el cliente que reservó puede cancelar") :=
  cancel_foreign_customer_forbidden storeC8b "a1" ⟨"c2", .client⟩ apptC8b
    (by decide) (by decide) rfl (by decide)

/-- **C9.** `cancelAppointment` is idempotent: cancelling an appointment
that is already CANCELLED succeeds as a no-op without error, and any
successful cancellation returns the appointment in the terminal CANCELLED
state such that cancelling again (by any actor) yields the very same result
and changes no stored state. -/
theorem cancelAppointment_idempotent (s : Store) (id : String)
    (actor actor2 : Actor) (a : Appointment) (s' : Store)
    (h : cancelAppointment s id actor = .ok (a, s')) :
    a.status = .CANCELLED ∧
    cancelAppointment s' id actor2 = .ok (a, s') ∧
    (s.appointments.find? (fun x => decide (x.id = id)) = some a → s' = s) := by
  unfold cancelAppointment at h
  cases hfind : s.appointments.find? fun x => decide (x.id = id) with
  | none => rw [hfind] at h; exact absurd h (by simp)
  | some appt =>
    rw [hfind] at h
    simp only at h
    by_cases hcanc : appt.status = .CANCELLED
    · rw [if_pos hcanc] at h
      simp only [Except.ok.injEq, Prod.mk.injEq] at h
      obtain ⟨ha, hs⟩ := h
      subst ha; subst hs
      refine ⟨hcanc, ?_, fun _ => rfl⟩
      unfold cancelAppointment
      rw [hfind]
      simp only
      rw [if_pos hcanc]
    · rw [if_neg hcanc] at h
      split at h
      · exact absurd h (by simp)
      · split at h
        · exact absurd h (by simp)
        · simp only [Except.ok.injEq, Prod.mk.injEq] at h
          obtain ⟨ha, hs⟩ := h
          have hid : appt.id = id := by
            have hp := List.find?_some hfind
            simpa using hp
          have hastat : a.status = .CANCELLED := by
            rw [← ha]
          refine ⟨hastat, ?_, ?_⟩
          · unfold cancelAppointment
            have hmap : s'.appointments.find? (fun x => decide (x.id = id)) =
                some a := by
              rw [← hs]
              simp only
              rw [List.find?_map]
              have hcomp : ((fun x => decide (x.id = id)) ∘ fun (x : Appointment) =>
                  if x.id = id then { x with status := AppointmentStatus.CANCELLED }
                  else x) = fun (x : Appointment) => decide (x.id = id) := by
                funext x
                by_cases hx : x.id = id <;> simp [hx]
              rw [hcomp, hfind]
              rw [← ha]
              simp [hid]
            rw [hmap]
            simp only
            rw [if_pos hastat]
          · intro hfa
            have heq2 : appt = a := Option.some.inj hfa
            exact absurd hastat (heq2 ▸ hcanc)

/-- Witness for C9: cancelling a booked appointment, then cancelling again. -/
theorem cancelAppointment_idempotent_witness :
    cancelAppointment storeC8b "a1" ⟨"c1", .client⟩ =
      .ok ({ apptC8b with status := .CANCELLED },
           { storeC8b with appointments := [{ apptC8b with status := .CANCELLED }] }) ∧
    ({ apptC8b with status := .CANCELLED } : Appointment).status = .CANCELLED ∧
    cancelAppointment
        { storeC8b with appointments := [{ apptC8b with status := .CANCELLED }] }
        "a1" ⟨"c1", .client⟩ =
      .ok ({ apptC8b with status := .CANCELLED },
           { storeC8b with appointments := [{ apptC8b with status := .CANCELLED }] }) := by
  have h1 : cancelAppointment storeC8b "a1" ⟨"c1", .client⟩ =
      .ok ({ apptC8b with status := .CANCELLED },
           { storeC8b with appointments := [{ apptC8b with status := .CANCELLED }] }) := by
    decide
  have h := cancelAppointment_idempotent storeC8b "a1" ⟨"c1", .client⟩
    ⟨"c1", .client⟩ { apptC8b with status := .CANCELLED }
    { storeC8b with appointments := [{ apptC8b with status := .CANCELLED }] } h1
  exact ⟨h1, h.1, h.2.1⟩

/-! ### Claims C2 and C7: the booking path -/

/-- Reduction of `createAppointment` once the entity lookups succeed: only
the availability check and the conflict check remain. -/
theorem createAppointment_reduce (off : String → Int) (s : Store)
    (input : CreateAppointmentInput) (customerId newId : String)
    (b : Business) (sv : Service) (start : Int) (ctx : DailyContext)
    (hb : s.businesses.find? (fun x => decide (x.id = input.businessId)) = some b)
    (hsv : s.services.find? (fun x => decide (x.id = input.serviceId)) = some sv)
    (hmatch : sv.businessId = input.businessId)
    (hcust : s.userClients.contains customerId = true)
    (hstaff : (match input.staffId with
               | some staffId => s.userBusinesses.contains staffId
               | none => true) = true)
    (hstart : input.startAt = some start)
    (hctx : getDailyContext off s input.businessId
        (some (dayNumberOf (off (effTimezone b.timezone)) start)) = .ok ctx) :
    createAppointment off s input customerId newId =
      (if !(ctx.intervals.any fun interval =>
            decide (interval.start ≤ start) &&
              decide (start + sv.durationMin ≤ interval.stop)) then
        .error (.badRequest "Horario fuera de la disponibilidad del negocio")
      else if ctx.appointments.any (fun appt =>
            overlaps start (start + sv.durationMin) appt.startAt appt.endAt
              input.staffId appt.staffId) then
        .error (.badRequest "Existe otra cita en ese horario")
      else
        .ok ({ id := newId, businessId := input.businessId,
               serviceId := input.serviceId, customerId := customerId,
               staffId := input.staffId, startAt := start,
               endAt := start + sv.durationMin, status := .BOOKED },
             { s with appointments := s.appointments ++
                 [{ id := newId, businessId := input.businessId,
                    serviceId := input.serviceId, customerId := customerId,
                    staffId := input.staffId, startAt := start,
                    endAt := start + sv.durationMin, status := .BOOKED }] })) := by
  unfold createAppointment
  rw [hb, hsv]
  simp only
  rw [if_neg (fun hne => hne hmatch)]
  rw [if_neg (by simpa using hcust)]
  rw [if_neg (by simpa using hstaff)]
  rw [hstart]
  simp only
  rw [hctx]

/-- **C2.** Under successful entity resolution, `createAppointment` rejects
when `[startAt, startAt + service.durationMin)` is not fully contained
within at least one resolved open interval of that calendar day; it rejects
when that interval overlaps (per the staff-scoped rule) an existing fetched
non-cancelled appointment of the business on that day; otherwise it persists
a new appointment with status BOOKED and `endAt = startAt + durationMin`. -/
theorem createAppointment_cases (off : String → Int) (s : Store)
    (input : CreateAppointmentInput) (customerId newId : String)
    (b : Business) (sv : Service) (start : Int) (ctx : DailyContext)
    (hb : s.businesses.find? (fun x => decide (x.id = input.businessId)) = some b)
    (hsv : s.services.find? (fun x => decide (x.id = input.serviceId)) = some sv)
    (hmatch : sv.businessId = input.businessId)
    (hcust : s.userClients.contains customerId = true)
    (hstaff : (match input.staffId with
               | some staffId => s.userBusinesses.contains staffId
               | none => true) = true)
    (hstart : input.startAt = some start)
    (hctx : getDailyContext off s input.businessId
        (some (dayNumberOf (off (effTimezone b.timezone)) start)) = .ok ctx) :
    (¬ (∃ i ∈ ctx.intervals, i.start ≤ start ∧ start + sv.durationMin ≤ i.stop) →
      createAppointment off s input customerId newId =
        .error (.badRequest "Horario fuera de la disponibilidad del negocio")) ∧
    ((∃ i ∈ ctx.intervals, i.start ≤ start ∧ start + sv.durationMin ≤ i.stop) →
     (∃ a ∈ ctx.appointments, overlaps start (start + sv.durationMin)
        a.startAt a.endAt input.staffId a.staffId = true) →
      createAppointment off s input customerId newId =
        .error (.badRequest "Existe otra cita en ese horario")) ∧
    ((∃ i ∈ ctx.intervals, i.start ≤ start ∧ start + sv.durationMin ≤ i.stop) →
     (∀ a ∈ ctx.appointments, overlaps start (start + sv.durationMin)
        a.startAt a.endAt input.staffId a.staffId = false) →
      createAppointment off s input customerId newId =
        .ok ({ id := newId, businessId := input.businessId,
               serviceId := input.serviceId, customerId := customerId,
               staffId := input.staffId, startAt := start,
               endAt := start + sv.durationMin, status := .BOOKED },
             { s with appointments := s.appointments ++
                 [{ id := newId, businessId := input.businessId,
                    serviceId := input.serviceId, customerId := customerId,
                    staffId := input.staffId, startAt := start,
                    endAt := start + sv.durationMin, status := .BOOKED }] })) := by
  have hred := createAppointment_reduce off s input customerId newId b sv start
    ctx hb hsv hmatch hcust hstaff hstart hctx
  have hany_iff : (ctx.intervals.any fun interval =>
      decide (interval.start ≤ start) &&
        decide (start + sv.durationMin ≤ interval.stop)) = true ↔
      ∃ i ∈ ctx.intervals, i.start ≤ start ∧ start + sv.durationMin ≤ i.stop := by
    simp [List.any_eq_true]
  refine ⟨?_, ?_, ?_⟩
  · intro hno
    have hfalse : (ctx.intervals.any fun interval =>
        decide (interval.start ≤ start) &&
          decide (start + sv.durationMin ≤ interval.stop)) = false := by
      cases hA : ctx.intervals.any fun interval =>
          decide (interval.start ≤ start) &&
            decide (start + sv.durationMin ≤ interval.stop) with
      | true => exact absurd (hany_iff.mp hA) hno
      | false => rfl
    rw [hred, hfalse]
    simp
  · intro hfits hconf
    have htrue : (ctx.intervals.any fun interval =>
        decide (interval.start ≤ start) &&
          decide (start + sv.durationMin ≤ interval.stop)) = true :=
      hany_iff.mpr hfits
    have hctrue : (ctx.appointments.any fun appt =>
        overlaps start (start + sv.durationMin) appt.startAt appt.endAt
          input.staffId appt.staffId) = true := List.any_eq_true.mpr hconf
    rw [hred, htrue, hctrue]
    simp
  · intro hfits hnoconf
    have htrue : (ctx.intervals.any fun interval =>
        decide (interval.start ≤ start) &&
          decide (start + sv.durationMin ≤ interval.stop)) = true :=
      hany_iff.mpr hfits
    have hcfalse : (ctx.appointments.any fun appt =>
        overlaps start (start + sv.durationMin) appt.startAt appt.endAt
          input.staffId appt.staffId) = false := by
      cases hA : ctx.appointments.any fun appt =>
          overlaps start (start + sv.durationMin) appt.startAt appt.endAt
            input.staffId appt.staffId with
      | true =>
        obtain ⟨a, ha, hov⟩ := List.any_eq_true.mp hA
        exact absurd hov (by rw [hnoconf a ha]; simp)
      | false => rfl
    rw [hred, htrue, hcfalse]
    simp

/-- Witness for C2, committing the free 09:00 slot. -/
theorem createAppointment_cases_witness :
    (∃ i ∈ ctxC2.intervals, i.start ≤ 540 ∧ 540 + svcC2.durationMin ≤ i.stop) ∧
    (∀ a ∈ ctxC2.appointments,
      overlaps 540 (540 + svcC2.durationMin) a.startAt a.endAt none a.staffId
        = false) ∧
    createAppointment offZero storeC2 ⟨"b1", "s1", some 540, none⟩ "c1" "a4" =
      .ok (⟨"a4", "b1", "s1", "c1", none, 540, 600, .BOOKED⟩,
           { storeC2 with appointments :=
               [apptC2, ⟨"a4", "b1", "s1", "c1", none, 540, 600, .BOOKED⟩] }) := by
  refine ⟨by decide, by decide, ?_⟩
  exact (createAppointment_cases offZero storeC2 ⟨"b1", "s1", some 540, none⟩
    "c1" "a4" ⟨"b1", "o1", "UTC"⟩ svcC2 540 ctxC2
    (by decide) (by decide) rfl (by decide) (by decide) rfl (by decide)).2.2
    (by decide) (by decide)

/-- **C7 (amended).** When the requested slot is taken by an existing
non-cancelled appointment, `createAppointment` rejects with
`BadRequestException("Existe otra cita en ese horario")` — the same
"bad request" category used for validation failures such as a slot outside
availability — not a distinct conflict category (the service throws no
`ConflictException`). -/
theorem conflict_rejected_as_bad_request (off : String → Int) (s : Store)
    (input : CreateAppointmentInput) (customerId newId : String)
    (b : Business) (sv : Service) (start : Int) (ctx : DailyContext)
    (hb : s.businesses.find? (fun x => decide (x.id = input.businessId)) = some b)
    (hsv : s.services.find? (fun x => decide (x.id = input.serviceId)) = some sv)
    (hmatch : sv.businessId = input.businessId)
    (hcust : s.userClients.contains customerId = true)
    (hstaff : (match input.staffId with
               | some staffId => s.userBusinesses.contains staffId
               | none => true) = true)
    (hstart : input.startAt = some start)
    (hctx : getDailyContext off s input.businessId
        (some (dayNumberOf (off (effTimezone b.timezone)) start)) = .ok ctx)
    (hfits : ∃ i ∈ ctx.intervals, i.start ≤ start ∧
      start + sv.durationMin ≤ i.stop)
    (hconf : ∃ a ∈ ctx.appointments, overlaps start (start + sv.durationMin)
      a.startAt a.endAt input.staffId a.staffId = true) :
    createAppointment off s input customerId newId =
      .error (.badRequest "Existe otra cita en ese horario") := by
  have hred := createAppointment_reduce off s input customerId newId b sv start
    ctx hb hsv hmatch hcust hstaff hstart hctx
  have htrue : (ctx.intervals.any fun interval =>
      decide (interval.start ≤ start) &&
        decide (start + sv.durationMin ≤ interval.stop)) = true := by
    simp only [List.any_eq_true]
    obtain ⟨i, hi, h1, h2⟩ := hfits
    exact ⟨i, hi, by simp [h1, h2]⟩
  have hctrue : (ctx.appointments.any fun appt =>
      overlaps start (start + sv.durationMin) appt.startAt appt.endAt
        input.staffId appt.staffId) = true := List.any_eq_true.mpr hconf
  rw [hred, htrue, hctrue]
  simp

/-- Witness for the amended C7: booking the taken 10:00 slot. -/
theorem conflict_rejected_as_bad_request_witness :
    createAppointment offZero storeC2 ⟨"b1", "s1", some 600, none⟩ "c1" "a2" =
      .error (.badRequest "Existe otra cita en ese horario") :=
  conflict_rejected_as_bad_request offZero storeC2 ⟨"b1", "s1", some 600, none⟩
    "c1" "a2" ⟨"b1", "o1", "UTC"⟩ svcC2 600 ctxC2
    (by decide) (by decide) rfl (by decide) (by decide) rfl (by decide)
    (by decide) (by decide)

/-- **C7 counterexample.** On `storeC2`, the taken 10:00 slot and the
out-of-availability 01:00 slot are rejected with errors of one and the same
category (`Err.badRequest`), refuting the claim that the slot-taken
rejection uses a "conflict" category distinct from "bad request". -/
theorem conflict_category_not_distinct_counterexample :
    createAppointment offZero storeC2 ⟨"b1", "s1", some 600, none⟩ "c1" "a2" =
      .error (.badRequest "Existe otra cita en ese horario") ∧
    createAppointment offZero storeC2 ⟨"b1", "s1", some 60, none⟩ "c1" "a3" =
      .error (.badRequest "Horario fuera de la disponibilidad del negocio") :=
  ⟨by decide, by decide⟩

/-! ### Claim C4: generated slots avoid existing appointments -/

/-- Every slot a completed run of the loop emits tests conflict-free against
every fetched appointment. -/
theorem slotWalkFuel_mem_no_conflict {dur step now : Int}
    {appts : List Appointment} {staffId : Option String} {stop : Int}
    {slot : Slot} :
    ∀ (fuel : Nat) {cursor : Int} {l : List Slot},
      slotWalkFuel dur step now appts staffId stop fuel cursor = some l →
      slot ∈ l →
      ∀ a ∈ appts,
        overlaps slot.startAt slot.endAt a.startAt a.endAt staffId a.staffId
          = false := by
  intro fuel
  induction fuel with
  | zero => intro cursor l h; simp [slotWalkFuel] at h
  | succ n ih =>
    intro cursor l h hmem a ha
    rw [slotWalkFuel] at h
    split at h
    · next hc =>
      cases hrec : slotWalkFuel dur step now appts staffId stop n (cursor + step) with
      | none => rw [hrec] at h; simp at h
      | some rest =>
        rw [hrec] at h
        simp only [Option.map, Option.some.injEq] at h
        subst h
        rw [List.mem_append] at hmem
        cases hmem with
        | inr hrest => exact ih hrec hrest a ha
        | inl hhead =>
          split at hhead
          · next hcond =>
            simp only [List.mem_singleton] at hhead
            subst hhead
            simp only [Bool.and_eq_true, Bool.not_eq_true'] at hcond
            have hcf := hcond.2
            rw [List.any_eq_false] at hcf
            simpa using hcf a ha
          · simp at hhead
    · simp only [Option.some.injEq] at h
      subst h
      simp at hmem

/-- The same, for the walk's denotation `slotWalk`. -/
theorem slotWalk_mem_no_conflict {dur step now : Int} {appts : List Appointment}
    {staffId : Option String} {stop : Int} {slot : Slot} {cursor : Int}
    (hmem : slot ∈ slotWalk dur step now appts staffId stop cursor) :
    ∀ a ∈ appts,
      overlaps slot.startAt slot.endAt a.startAt a.endAt staffId a.staffId
        = false := by
  unfold slotWalk at hmem
  cases hrun : slotWalkFuel dur step now appts staffId stop
      ((stop - dur - cursor + 1).toNat + 1) cursor with
  | none => rw [hrun] at hmem; simp at hmem
  | some l =>
    rw [hrun] at hmem
    simp only [Option.getD_some] at hmem
    exact fun a ha => slotWalkFuel_mem_no_conflict _ hrun hmem a ha

/-- **C4.** For every slot `S` in the sequence returned by `getAvailability`
and every fetched non-cancelled appointment `A` of that business and day
with compatible staff scoping, `S` and `A` do not overlap. -/
theorem availability_slots_conflict_free (off : String → Int) (s : Store)
    (now : Int) (businessId : String) (params : AvailabilityRequest)
    (ctx : DailyContext) (res : AvailabilityResult)
    (hctx : getDailyContext off s businessId params.date = .ok ctx)
    (hres : getAvailability off s now businessId params = .ok res) :
    ∀ slot ∈ res.slots, ∀ a ∈ ctx.appointments,
      staffCompatible params.staffId a.staffId →
        ¬ (slot.startAt < a.endAt ∧ a.startAt < slot.endAt) := by
  intro slot hslot a ha hcompat
  unfold getAvailability at hres
  rw [hctx] at hres
  simp only at hres
  cases hsv : s.services.find? fun sv => decide (sv.id = params.serviceId) with
  | none => rw [hsv] at hres; exact absurd hres (by simp)
  | some service =>
    rw [hsv] at hres
    simp only at hres
    split at hres
    · exact absurd hres (by simp)
    · simp only [Except.ok.injEq] at hres
      subst hres
      simp only at hslot
      rw [List.mem_flatMap] at hslot
      obtain ⟨interval, hi, hmem⟩ := hslot
      have hno := slotWalk_mem_no_conflict hmem a ha
      rw [overlaps_eq_of_compatible _ _ _ _ hcompat] at hno
      intro hcon
      simp [hcon.1, hcon.2] at hno

/-- Witness for C4: the emitted 09:00–10:00 slot does not overlap the
10:00–11:00 appointment. -/
theorem availability_slots_conflict_free_witness :
    getAvailability offZero storeC4 0 "b1" ⟨some 0, "s1", none, none⟩ =
      .ok resC4 ∧
    ¬ ((540 : Int) < apptC2.endAt ∧ apptC2.startAt < (600 : Int)) := by
  refine ⟨by decide, ?_⟩
  exact availability_slots_conflict_free offZero storeC4 0 "b1"
    ⟨some 0, "s1", none, none⟩ ctxC4 resC4 (by decide) (by decide)
    ⟨540, 600⟩ (by decide) apptC2 (by decide) (Or.inl rfl)

/-! ### Claim C10: termination of the slot-generation loop -/

/-- With a positive step, the budgeted loop exits before the budget
`(stop - dur - cursor + 1).toNat + 1` runs out. -/
theorem slotWalkFuel_isSome (dur step now : Int) (appts : List Appointment)
    (staffId : Option String) (stop : Int) (hstep : 0 < step) :
    ∀ (fuel : Nat) (cursor : Int), (stop - dur - cursor + 1).toNat < fuel →
      (slotWalkFuel dur step now appts staffId stop fuel cursor).isSome
        = true := by
  intro fuel
  induction fuel with
  | zero => intro cursor h; omega
  | succ n ih =>
    intro cursor h
    rw [slotWalkFuel]
    split
    · next hc =>
      have hs := ih (cursor + step) (by omega)
      cases hrec : slotWalkFuel dur step now appts staffId stop n (cursor + step) with
      | none => rw [hrec] at hs; simp at hs
      | some rest => simp [Option.map]
    · simp

/-- **C10.** For every positive integer `stepMinutes` — including the
default 15 substituted when the parameter is omitted or zero — and every
finite list of resolved open intervals, the slot-generation loop of
`getAvailability` terminates: each per-interval walk completes within the
explicit finite iteration budget (the cursor strictly increases each
iteration), so the budgeted loop computes the denotation `slotWalk` used by
`getAvailability`, with no truncation. -/
theorem slot_generation_terminates (dur step now : Int)
    (appts : List Appointment) (staffId : Option String)
    (intervals : List Interval) (hstep : 0 < step) :
    (effStepMinutes none = 15 ∧ effStepMinutes (some 0) = 15 ∧
      (0 : Int) < effStepMinutes none) ∧
    (∀ i ∈ intervals, ∃ slots,
      slotWalkFuel dur step now appts staffId i.stop
          ((i.stop - dur - i.start + 1).toNat + 1) i.start = some slots ∧
      slotWalk dur step now appts staffId i.stop i.start = slots) ∧
    (∀ cursor : Int, cursor < cursor + step) := by
  refine ⟨⟨rfl, rfl, by decide⟩, ?_, fun cursor => by omega⟩
  intro i hi
  have hs := slotWalkFuel_isSome dur step now appts staffId i.stop hstep
    ((i.stop - dur - i.start + 1).toNat + 1) i.start (by omega)
  cases hrun : slotWalkFuel dur step now appts staffId i.stop
      ((i.stop - dur - i.start + 1).toNat + 1) i.start with
  | none => rw [hrun] at hs; simp at hs
  | some slots =>
    refine ⟨slots, rfl, ?_⟩
    unfold slotWalk
    rw [hrun]
    rfl

/-- Witness for C10 on a concrete interval. -/
theorem slot_generation_terminates_witness :
    (0 : Int) < 15 ∧
    ∃ slots,
      slotWalkFuel 60 15 0 [] none 630 ((630 - 60 - 540 + 1 : Int).toNat + 1) 540
        = some slots ∧
      slotWalk 60 15 0 [] none 630 540 = slots := by
  refine ⟨by decide, ?_⟩
  exact (slot_generation_terminates 60 15 0 [] none [⟨540, 630⟩]
    (by decide)).2.1 ⟨540, 630⟩ (by decide)

/-! ### Claim C1: the overlap invariant on reachable states -/

/-- Shape of the context a successful `getDailyContext` call returns. -/
theorem getDailyContext_ok {off : String → Int} {s : Store}
    {businessId : String} {date : Option Int} {ctx : DailyContext}
    (hctx : getDailyContext off s businessId date = .ok ctx) :
    ∃ business dayNum,
      s.businesses.find? (fun x => decide (x.id = businessId)) = some business ∧
      date = some dayNum ∧
      ctx.business = business ∧
      ctx.timezone = effTimezone business.timezone ∧
      ctx.day = 1440 * dayNum - off ctx.timezone ∧
      ctx.intervals = resolveIntervals ctx.day
        (findDayRules s businessId ((dayNum + 4) % 7))
        (findDayException s businessId ctx.day) ∧
      ctx.appointments = findDayAppointments s businessId ctx.day := by
  unfold getDailyContext at hctx
  cases hb : s.businesses.find? fun x => decide (x.id = businessId) with
  | none => rw [hb] at hctx; exact absurd hctx (by simp)
  | some business =>
    rw [hb] at hctx
    cases date with
    | none => exact absurd hctx (by simp)
    | some dayNum =>
      simp only [Except.ok.injEq] at hctx
      subst hctx
      exact ⟨business, dayNum, rfl, rfl, rfl, rfl, rfl, rfl, rfl⟩

/-- Inversion of a successful booking: the lookups succeeded, the candidate
fits an open interval, no fetched appointment conflicts, and the store
gained exactly the new BOOKED appointment. -/
theorem createAppointment_ok_inv {off : String → Int} {s : Store}
    {input : CreateAppointmentInput} {customerId newId : String}
    {appt : Appointment} {s' : Store}
    (h : createAppointment off s input customerId newId = .ok (appt, s')) :
    ∃ b sv start ctx,
      s.businesses.find? (fun x => decide (x.id = input.businessId)) = some b ∧
      s.services.find? (fun x => decide (x.id = input.serviceId)) = some sv ∧
      input.startAt = some start ∧
      getDailyContext off s input.businessId
        (some (dayNumberOf (off (effTimezone b.timezone)) start)) = .ok ctx ∧
      (ctx.intervals.any fun interval =>
        decide (interval.start ≤ start) &&
          decide (start + sv.durationMin ≤ interval.stop)) = true ∧
      (ctx.appointments.any fun a =>
        overlaps start (start + sv.durationMin) a.startAt a.endAt
          input.staffId a.staffId) = false ∧
      appt = { id := newId, businessId := input.businessId,
               serviceId := input.serviceId, customerId := customerId,
               staffId := input.staffId, startAt := start,
               endAt := start + sv.durationMin, status := .BOOKED } ∧
      s' = { s with appointments := s.appointments ++ [appt] } := by
  unfold createAppointment at h
  cases hb : s.businesses.find? fun x => decide (x.id = input.businessId) with
  | none => rw [hb] at h; exact absurd h (by simp)
  | some b =>
    rw [hb] at h
    cases hsv : s.services.find? fun x => decide (x.id = input.serviceId) with
    | none => rw [hsv] at h; exact absurd h (by simp)
    | some sv =>
      rw [hsv] at h
      simp only at h
      split at h
      · exact absurd h (by simp)
      · split at h
        · exact absurd h (by simp)
        · split at h
          · exact absurd h (by simp)
          · cases hstart : input.startAt with
            | none => rw [hstart] at h; exact absurd h (by simp)
            | some start =>
              rw [hstart] at h
              simp only at h
              cases hctx : getDailyContext off s input.businessId
                  (some (dayNumberOf (off (effTimezone b.timezone)) start)) with
              | error e => rw [hctx] at h; exact absurd h (by simp)
              | ok ctx =>
                rw [hctx] at h
                simp only at h
                split at h
                · exact absurd h (by simp)
                · next hfit =>
                  split at h
                  · exact absurd h (by simp)
                  · next hconf =>
                    simp only [Except.ok.injEq, Prod.mk.injEq] at h
                    obtain ⟨ha, hs'⟩ := h
                    subst ha
                    subst hs'
                    exact ⟨b, sv, start, ctx, rfl, rfl, rfl, hctx,
                      by simpa using hfit, by simpa using hconf, rfl, rfl⟩

/-- Two day starts of the same zone closer than a full day apart coincide. -/
theorem startOfDay_eq_of_close (o t x : Int)
    (h1 : startOfDay o t - 1440 < startOfDay o x)
    (h2 : startOfDay o x < startOfDay o t + 1440) :
    startOfDay o x = startOfDay o t := by
  unfold startOfDay at *
  omega

/-- The cancellation update keeps every field except the status, and the
status it writes is CANCELLED. -/
theorem cancelMark_spec (id : String) (x : Appointment) :
    (if x.id = id then { x with status := AppointmentStatus.CANCELLED }
     else x).businessId = x.businessId ∧
    (if x.id = id then { x with status := AppointmentStatus.CANCELLED }
     else x).staffId = x.staffId ∧
    (if x.id = id then { x with status := AppointmentStatus.CANCELLED }
     else x).startAt = x.startAt ∧
    (if x.id = id then { x with status := AppointmentStatus.CANCELLED }
     else x).endAt = x.endAt ∧
    ((if x.id = id then { x with status := AppointmentStatus.CANCELLED }
      else x).status ≠ AppointmentStatus.CANCELLED →
        x.status ≠ AppointmentStatus.CANCELLED) := by
  by_cases hx : x.id = id <;> simp [hx]

/-- Both invariants are preserved by a successful booking. -/
theorem create_preserves (off : String → Int) {s : Store}
    {input : CreateAppointmentInput} {customerId newId : String}
    {appt : Appointment} {s' : Store}
    (hinv : NoDoubleBooking s) (hwp : WellPlaced off s)
    (h : createAppointment off s input customerId newId = .ok (appt, s')) :
    NoDoubleBooking s' ∧ WellPlaced off s' := by
  obtain ⟨b, sv, start, ctx, hb, hsv, hstart, hctx, hfit, hconf, happt, hs'⟩ :=
    createAppointment_ok_inv h
  obtain ⟨b', dayNum, hb', hdate, hbiz, htz, hday, hints, happts⟩ :=
    getDailyContext_ok hctx
  have hbb : b' = b := Option.some.inj (hb'.symm.trans hb)
  subst hbb
  have hdn : dayNum = dayNumberOf (off (effTimezone b'.timezone)) start :=
    (Option.some.inj hdate).symm
  have hdaystart : ctx.day = startOfDay (off (effTimezone b'.timezone)) start := by
    rw [hday, htz, hdn]
    exact dayNumber_startOfDay _ _
  obtain ⟨i, hi, hfit1, hfit2⟩ : ∃ i ∈ ctx.intervals,
      i.start ≤ start ∧ start + sv.durationMin ≤ i.stop := by
    obtain ⟨i, hi, hcond⟩ := List.any_eq_true.mp hfit
    simp only [Bool.and_eq_true, decide_eq_true_eq] at hcond
    exact ⟨i, hi, hcond⟩
  have hibounds := resolveIntervals_mem (hints ▸ hi)
  have hD1 : ctx.day ≤ start := le_trans hibounds.1 hfit1
  have hD2 : start + sv.durationMin ≤ ctx.day + 1439 :=
    le_trans hfit2 hibounds.2.2
  -- no old appointment conflicts with the new one
  have hnoconf : ∀ x ∈ s.appointments, ¬ apptsConflict x appt := by
    intro x hx hcon
    obtain ⟨hcb, hcs1, hcs2, hcompat, hov1, hov2⟩ := hcon
    rw [happt] at hcb
    simp only at hcb
    obtain ⟨bx, hbx, hxbound⟩ := hwp x hx
    rw [hcb] at hbx
    have hbxb : bx = b' := Option.some.inj (hbx.symm.trans hb)
    subst hbxb
    set o := off (effTimezone bx.timezone) with ho
    have hxle := startOfDay_le o x.startAt
    have hxlt := lt_startOfDay_add o x.startAt
    have hov1' : x.startAt < start + sv.durationMin := by
      rw [happt] at hov1; simpa using hov1
    have hov2' : start < x.endAt := by
      rw [happt] at hov2; simpa using hov2
    have hDx : startOfDay o x.startAt = ctx.day := by
      rw [hdaystart]
      apply startOfDay_eq_of_close
      · -- startOfDay o start - 1440 < startOfDay o x.startAt
        have : start < x.endAt := hov2'
        have hbnd : x.endAt < startOfDay o x.startAt + 1440 := hxbound
        rw [← hdaystart]
        omega
      · -- startOfDay o x.startAt < startOfDay o start + 1440
        rw [← hdaystart]
        have : x.startAt < ctx.day + 1440 := by omega
        omega
    have hxmem : x ∈ ctx.appointments := by
      rw [happts]
      unfold findDayAppointments
      rw [List.mem_filter]
      refine ⟨hx, ?_⟩
      have hx1 : ctx.day ≤ x.startAt := by rw [← hDx]; exact hxle
      have hx2 : x.startAt < ctx.day + 1440 := by rw [← hDx]; exact hxlt
      simp [hcb, hx1, hx2, hcs1]
    have hcf := List.any_eq_false.mp hconf x hxmem
    have hcompat' : staffCompatible input.staffId x.staffId := by
      apply staffCompatible_symm
      rw [happt] at hcompat
      simpa using hcompat
    rw [overlaps_eq_of_compatible _ _ _ _ hcompat'] at hcf
    simp [hov2', show start + sv.durationMin > x.startAt from by omega] at hcf
  constructor
  · unfold NoDoubleBooking
    rw [hs']
    simp only
    rw [List.pairwise_append]
    refine ⟨hinv, by simp, ?_⟩
    intro x hx y hy
    simp only [List.mem_singleton] at hy
    subst hy
    exact hnoconf x hx
  · intro a ha
    rw [hs'] at ha
    simp only at ha
    rw [List.mem_append] at ha
    cases ha with
    | inl hold =>
      obtain ⟨ba, hba, habound⟩ := hwp a hold
      exact ⟨ba, by rw [hs']; exact hba, habound⟩
    | inr hnew =>
      simp only [List.mem_singleton] at hnew
      subst hnew
      refine ⟨b', ?_, ?_⟩
      · rw [hs', happt]
        simpa using hb
      · rw [happt]
        simp only
        rw [← hdaystart]
        omega

/-- Both invariants are preserved by a successful cancellation. -/
theorem cancel_preserves (off : String → Int) {s : Store} {id : String}
    {actor : Actor} {appt : Appointment} {s' : Store}
    (hinv : NoDoubleBooking s) (hwp : WellPlaced off s)
    (h : cancelAppointment s id actor = .ok (appt, s')) :
    NoDoubleBooking s' ∧ WellPlaced off s' := by
  unfold cancelAppointment at h
  cases hfind : s.appointments.find? fun a => decide (a.id = id) with
  | none => rw [hfind] at h; exact absurd h (by simp)
  | some a0 =>
    rw [hfind] at h
    simp only at h
    split at h
    · simp only [Except.ok.injEq, Prod.mk.injEq] at h
      obtain ⟨-, hs'⟩ := h
      subst hs'
      exact ⟨hinv, hwp⟩
    · split at h
      · exact absurd h (by simp)
      · split at h
        · exact absurd h (by simp)
        · simp only [Except.ok.injEq, Prod.mk.injEq] at h
          obtain ⟨-, hs'⟩ := h
          subst hs'
          constructor
          · unfold NoDoubleBooking at hinv ⊢
            simp only
            refine List.Pairwise.map _ ?_ hinv
            intro x y hxy hcon
            apply hxy
            obtain ⟨hxb, hxst, hxsa, hxea, hxs⟩ := cancelMark_spec id x
            obtain ⟨hyb, hyst, hysa, hyea, hys⟩ := cancelMark_spec id y
            obtain ⟨hcb, hcs1, hcs2, hcompat, hov1, hov2⟩ := hcon
            exact ⟨by rw [hxb, hyb] at hcb; exact hcb,
                   hxs hcs1, hys hcs2,
                   by rw [hxst, hyst] at hcompat; exact hcompat,
                   by rw [hxsa, hyea] at hov1; exact hov1,
                   by rw [hysa, hxea] at hov2; exact hov2⟩
          · intro a ha
            simp only at ha
            rw [List.mem_map] at ha
            obtain ⟨x, hx, hfx⟩ := ha
            obtain ⟨bx, hbx, hxbound⟩ := hwp x hx
            obtain ⟨hxb, -, hxsa, hxea, -⟩ := cancelMark_spec id x
            rw [hfx] at hxb hxsa hxea
            refine ⟨bx, ?_, ?_⟩
            · simp only
              rw [hxb]
              exact hbx
            · rw [hxsa, hxea]
              exact hxbound

/-- **C1.** In every state reachable from an appointment-free store by the
engine's booking and cancellation operations, no two non-cancelled
appointments of the same business have overlapping `[startAt, endAt)`
intervals when they share the same staff identifier or when either of them
has no staff identifier. -/
theorem reachable_no_double_booking (off : String → Int) (s0 s : Store)
    (hinit : s0.appointments = []) (h : Reachable off s0 s) :
    s.appointments.Pairwise fun a b => ¬ apptsConflict a b := by
  have hgood : NoDoubleBooking s ∧ WellPlaced off s := by
    induction h with
    | refl =>
      constructor
      · unfold NoDoubleBooking
        rw [hinit]
        exact List.Pairwise.nil
      · intro a ha
        rw [hinit] at ha
        simp at ha
    | step hr hstep ih =>
      cases hstep with
      | create input customerId newId appt hc =>
        exact create_preserves off ih.1 ih.2 hc
      | cancel id actor appt hc =>
        exact cancel_preserves off ih.1 ih.2 hc
  exact hgood.1

/-- Witness for C1: a state reached by one booking satisfies the pairwise
overlap invariant. -/
theorem reachable_no_double_booking_witness :
    storeC1.appointments = [] ∧
    storeC1b.appointments.Pairwise fun a b => ¬ apptsConflict a b := by
  refine ⟨rfl, ?_⟩
  exact reachable_no_double_booking offZero storeC1 storeC1b rfl
    (Reachable.step Reachable.refl
      (Step.create ⟨"b1", "s1", some 540, none⟩ "c1" "a4" apptC1 (by decide)))

end Schedly
